import Mathlib

/-!
Verification of the daily-task tracker core (`app.py`): the template-to-date
projection function `replace_date_part`, the `mr_truth` flag parser, the
SSE listener registry with its `broadcast` fan-out, and the per-date status
read `api_state_get` with its stats block.  Python functions are embedded as
executable Lean definitions; Python exceptions become `Option`/`Except`.
-/

deriving instance DecidableEq for Except

/-! ## Strings: Python `str.strip`, `str.split(" ", 1)`, `str.lower` -/

/-- The whitespace characters removed by Python `str.strip()` (ASCII range;
inputs here never carry non-ASCII whitespace). -/
def isPySpace (c : Char) : Bool :=
  c = ' ' || c = '\t' || c = '\n' || c = '\r' || c = '\x0b' || c = '\x0c'

/-- Python `str.strip()` on a character list: drop whitespace at both ends. -/
def stripCore (cs : List Char) : List Char :=
  ((cs.dropWhile isPySpace).reverse.dropWhile isPySpace).reverse

/-- The part after the first `' '`, when a `' '` occurs: models
`ts.split(" ", 1)[1]` guarded by `" " in ts`. -/
def afterFirstSpace : List Char → Option (List Char)
  | [] => none
  | c :: cs => if c = ' ' then some cs else afterFirstSpace cs

/-- Python `str.lower()` restricted to ASCII letters (the stored flag values
contain no other cased characters). -/
def pyLowerChar (c : Char) : Char :=
  if 'A' ≤ c && c ≤ 'Z' then Char.ofNat (c.toNat + 32) else c

/-- Python `str.strip()` on a `String`. -/
def pyStripStr (s : String) : String := ⟨stripCore s.data⟩

/-- Python `str.lower()` on a `String`. -/
def pyLowerStr (s : String) : String := ⟨s.data.map pyLowerChar⟩

/-! ## `datetime.strptime` for the formats `%H:%M:%S` and `%H:%M`

`strptime` matches `%H` against one or two digits with value at most 23 and
`%M` against one or two digits with value at most 59; when the first two
characters are digits the two-digit alternative is forced, since the
one-digit fallback would then need `':'` (or the end of input) where a digit
stands.  `%S` accepts 60 and 61 in the regex but `datetime` then rejects
them, so the net effect is a bound of 59. -/

/-- The value of an ASCII digit character, if it is one. -/
def digitVal? (c : Char) : Option Nat :=
  if 48 ≤ c.toNat && c.toNat ≤ 57 then some (c.toNat - 48) else none

/-- Read one `strptime` numeric field (one or two digits, value ≤ `hi`),
returning the value and the unread rest. -/
def readField (hi : Nat) : List Char → Option (Nat × List Char)
  | [] => none
  | [c] => (digitVal? c).map (fun a => (a, ([] : List Char)))
  | c1 :: c2 :: rest =>
    match digitVal? c1 with
    | none => none
    | some a =>
      match digitVal? c2 with
      | some b => if 10 * a + b ≤ hi then some (10 * a + b, rest) else none
      | none => some (a, c2 :: rest)

/-- A wall-clock time of day, as `datetime.time` stores it. -/
structure PyTime where
  hour : Nat
  minute : Nat
  second : Nat
deriving DecidableEq, Repr

/-- `datetime.strptime(s, "%H:%M:%S")`, `none` for the `ValueError` case. -/
def strptimeHMS (cs : List Char) : Option PyTime :=
  match readField 23 cs with
  | none => none
  | some (h, rest) =>
    match rest with
    | ':' :: rest2 =>
      match readField 59 rest2 with
      | none => none
      | some (m, rest3) =>
        match rest3 with
        | ':' :: rest4 =>
          match readField 59 rest4 with
          | some (s, []) => some ⟨h, m, s⟩
          | _ => none
        | _ => none
    | _ => none

/-- `datetime.strptime(s, "%H:%M")`, `none` for the `ValueError` case. -/
def strptimeHM (cs : List Char) : Option PyTime :=
  match readField 23 cs with
  | none => none
  | some (h, rest) =>
    match rest with
    | ':' :: rest2 =>
      match readField 59 rest2 with
      | some (m, []) => some ⟨h, m, 0⟩
      | _ => none
    | _ => none

/-- Two-digit zero-padded rendering of a field, as `strftime` emits it. -/
def pad2 (n : Nat) : List Char :=
  if n < 10 then ['0', Nat.digitChar n]
  else [Nat.digitChar (n / 10), Nat.digitChar (n % 10)]

/-- `time.strftime("%H:%M:%S")`. -/
def renderHMS (t : PyTime) : List Char :=
  pad2 t.hour ++ ':' :: pad2 t.minute ++ ':' :: pad2 t.second

/-- `time.strftime("%H:%M")`. -/
def renderHM (t : PyTime) : List Char :=
  pad2 t.hour ++ ':' :: pad2 t.minute

/-! ## The Template Projector: `replace_date_part` -/

/-- The time-of-day portion `replace_date_part` extracts from its input:
`ts = ts.strip()`, then the part after the first `" "` when one occurs
(else the whole string), then the inner `.strip()` applied before parsing. -/
def todCore (cs : List Char) : List Char :=
  let ts := stripCore cs
  stripCore (match afterFirstSpace ts with
    | some r => r
    | none => ts)

/-- `replace_date_part` on character lists: parse the time-of-day first as
`%H:%M:%S`, fall back to `%H:%M`, re-render with the format that parsed, and
prepend the target date with a single space; `Except.error ()` models the
uncaught `ValueError` when both parses fail. -/
def replaceCore (cs toDate : List Char) : Except Unit (List Char) :=
  let tod := todCore cs
  match strptimeHMS tod with
  | some t => .ok (toDate ++ ' ' :: renderHMS t)
  | none =>
    match strptimeHM tod with
    | some t => .ok (toDate ++ ' ' :: renderHM t)
    | none => .error ()

/-- `replace_date_part(ts, to_date)` from `app.py`. -/
def replace_date_part (ts to_date : String) : Except Unit String :=
  (replaceCore ts.data to_date.data).map (fun l => ⟨l⟩)

/-! ## `mr_truth` -/

/-- The truthy strings accepted for `must_review`. -/
def mrTokens : List String := ["是", "true", "1", "y", "yes"]

/-- `mr_truth(v)` from `app.py`: strip, lowercase, and test membership in the
fixed token tuple. -/
def mr_truth (v : String) : Bool :=
  decide (pyLowerStr (pyStripStr v) ∈ mrTokens)

/-! ## ChangeEvents and the listener registry -/

/-- One element of the `changes` list of a broadcast event. -/
structure ChangeItem where
  task_id : Nat
  completed : Bool
  reviewed : Bool
deriving DecidableEq, Repr

/-- The event dictionary built by `api_state_post` and handed to
`broadcast`; `seq` is `int(time.time()*1000)`. -/
structure ChangeEvent where
  date : String
  changes : List ChangeItem
  seq : Int
deriving DecidableEq, Repr

/-- One registered listener: a `queue.Queue(maxsize=capacity)` together with
an identity (standing in for Python object identity in the `listeners` set).
`sse_stream` creates them with `capacity = 1000` and an empty queue. -/
structure Listener where
  id : Nat
  capacity : Nat
  queue : List ChangeEvent
deriving DecidableEq, Repr

/-- `q.put_nowait(ev)`: append to the FIFO when there is room, `none` for
the raised `queue.Full` exception. -/
def put_nowait (l : Listener) (ev : ChangeEvent) : Option Listener :=
  if l.queue.length < l.capacity then some { l with queue := l.queue ++ [ev] } else none

/-- `broadcast(ev)` from `app.py`, acting on the registered listener set:
each listener whose enqueue succeeds keeps its updated queue; each listener
whose `put_nowait` raises (the `except Exception` branch) is collected in
`dead` and discarded from the set. -/
def broadcast (ls : List Listener) (ev : ChangeEvent) : List Listener :=
  ls.filterMap (fun l => put_nowait l ev)

/-- A sequence of `broadcast` calls, in publish order. -/
def publishAll (ls : List Listener) (evs : List ChangeEvent) : List Listener :=
  evs.foldl broadcast ls

/-- The listener in the set with the given identity, if any. -/
def findById (ls : List Listener) (i : Nat) : Option Listener :=
  ls.find? (fun l => l.id == i)

/-- Delivery to one listener across a publish sequence, seen from the
listener: events are appended by `put_nowait` until the first failure, at
which point `broadcast` deregisters the listener and it receives nothing
further. -/
def runListener (l : Listener) : List ChangeEvent → Listener
  | [] => l
  | ev :: evs =>
    match put_nowait l ev with
    | some l2 => runListener l2 evs
    | none => l

/-- Delivery as tracked inside the registry: `none` once deregistered. -/
def runOpt (o : Option Listener) (ev : ChangeEvent) : Option Listener :=
  match o with
  | none => none
  | some l => put_nowait l ev

/-! ## The lock discipline of `broadcast`, as an operation trace

`broadcast` runs entirely inside `with lst_lock:`: the snapshot copy
`list(listeners)`, every `put_nowait`, and the discarding of dead listeners
all happen between the acquire and the release. -/

/-- The primitive steps of one `broadcast` call. -/
inductive BOp where
  | acquire
  | snapshot
  | enqueue (i : Nat)
  | discard (i : Nat)
  | release
deriving DecidableEq, Repr

/-- Positions (in snapshot order) of the listeners whose enqueue raises,
i.e. the `dead` list. -/
def deadIndices (ls : List Listener) (ev : ChangeEvent) : List Nat :=
  (ls.enum.filter (fun p => (put_nowait p.2 ev).isNone)).map (fun p => p.1)

/-- The step trace of `broadcast(ev)`, in program order: enter the `with`
block, snapshot the set, attempt every enqueue, discard the dead listeners,
leave the `with` block. -/
def broadcastTrace (ls : List Listener) (ev : ChangeEvent) : List BOp :=
  BOp.acquire :: BOp.snapshot ::
    ((List.range ls.length).map BOp.enqueue ++
      (deadIndices ls ev).map BOp.discard ++ [BOp.release])

/-- Whether the registry mutex is held while the step at position `i`
executes: more acquires than releases among the steps up to and
including `i`. -/
def lockHeldAt (tr : List BOp) (i : Nat) : Bool :=
  (tr.take (i + 1)).count BOp.release < (tr.take (i + 1)).count BOp.acquire

/-! ## The per-date status read: `api_state_get` -/

/-- One row of the `tasks` template table (the columns `api_state_get`
selects). -/
structure TaskTemplate where
  id : Nat
  name : String
  must_review : String
deriving DecidableEq, Repr

/-- One row of the `task_state` table. -/
structure StateRow where
  date : String
  task_id : Nat
  completed : Bool
  reviewed : Bool
deriving DecidableEq, Repr

/-- One entry of the `list` array in the `api_state_get` response. -/
structure StatusEntry where
  id : Nat
  name : String
  mustReview : String
  completed : Bool
  reviewed : Bool
deriving DecidableEq, Repr

/-- The `stats` block of the `api_state_get` response. -/
structure Stats where
  total : Nat
  doneReviewed : Nat
  doneUnreviewed : Nat
  undone : Nat
  mustReviewUndone : Nat
deriving DecidableEq, Repr

/-- The `task_state` row joined to a task for the requested date, if any
(unique because the primary key of the table is the pair of date and task id). -/
def lookupState (states : List StateRow) (date : String) (tid : Nat) : Option StateRow :=
  states.find? (fun r => r.date == date && r.task_id == tid)

/-- One output row of the `LEFT JOIN`: `COALESCE(s.completed,0)` and
`COALESCE(s.reviewed,0)` default both flags to false when no row matches. -/
def entryFor (states : List StateRow) (date : String) (t : TaskTemplate) : StatusEntry :=
  match lookupState states date t.id with
  | some r => ⟨t.id, t.name, t.must_review, r.completed, r.reviewed⟩
  | none => ⟨t.id, t.name, t.must_review, false, false⟩

/-- The `stats` dictionary computed from the entry list. -/
def mkStats (lst : List StatusEntry) : Stats where
  total := lst.length
  doneReviewed := (lst.filter (fun x => x.completed && x.reviewed)).length
  doneUnreviewed := (lst.filter (fun x => x.completed && !x.reviewed)).length
  undone := (lst.filter (fun x => !x.completed)).length
  mustReviewUndone :=
    (lst.filter (fun x => mr_truth x.mustReview && !x.completed && !x.reviewed)).length

/-- `api_state_get` for a requested date: the entry list (template order)
and its stats. -/
def api_state_get (tasks : List TaskTemplate) (states : List StateRow) (date : String) :
    List StatusEntry × Stats :=
  let lst := tasks.map (entryFor states date)
  (lst, mkStats lst)

/-! ## The sequence number of `api_state_post` -/

/-- Python `int()` on an exact rational: truncation toward zero.  The float
returned by `time.time()` is modelled as the exact value it carries. -/
def pyInt (q : ℚ) : Int :=
  if 0 ≤ q then ⌊q⌋ else -⌊-q⌋

/-- The `ChangeEvent` `api_state_post` builds after a successful write,
with `seq = int(clock * 1000)` where `clock` is the `time.time()`
reading. -/
def postEvent (date : String) (task_id : Nat) (completed reviewed : Bool) (clock : ℚ) :
    ChangeEvent where
  date := date
  changes := [⟨task_id, completed, reviewed⟩]
  seq := pyInt (clock * 1000)

/-- Concrete events used to instantiate the broadcaster theorems. -/
def cev1 : ChangeEvent := ⟨"2025-01-01", [⟨3, true, false⟩], 1000⟩

/-! # Lemmas and claims -/

/-- A second concrete event, published after `cev1`. -/
def cev2 : ChangeEvent := ⟨"2025-01-01", [⟨4, false, true⟩], 1001⟩


theorem strptimeHMS_eq_none_of_HM {cs : List Char} {t : PyTime}
    (h : strptimeHM cs = some t) : strptimeHMS cs = none := by
  unfold strptimeHM at h
  unfold strptimeHMS
  split at h
  · rfl
  · split at h
    · split at h
      · rename_i s heq2
        rw [heq2]
      · simp at h
    · simp at h

/-- Claim C1: for every template timestamp string whose time-of-day portion (the
part after the first space of the stripped string, or the whole string when no
space occurs) parses as `%H:%M:%S` or as `%H:%M`, and every target date `D`,
`replace_date_part` returns `D`, one space, and the time-of-day re-rendered in
the precision it was given: the `%H:%M:%S` branch always keeps its seconds
field (all-zero seconds included) and the `%H:%M` branch never gains one; in
particular the two concrete scenarios of the spec hold. -/
theorem C1_projection_replaces_date_preserving_precision :
    (∀ (ts D : String) (t : PyTime), strptimeHMS (todCore ts.data) = some t →
      replace_date_part ts D = .ok ⟨D.data ++ ' ' :: renderHMS t⟩) ∧
    (∀ (ts D : String) (t : PyTime), strptimeHM (todCore ts.data) = some t →
      replace_date_part ts D = .ok ⟨D.data ++ ' ' :: renderHM t⟩) ∧
    replace_date_part "2024-08-06 08:00" "2025-01-01" = .ok "2025-01-01 08:00" ∧
    replace_date_part "2024-08-06 08:00:30" "2025-01-01" = .ok "2025-01-01 08:00:30" := by
  refine ⟨?_, ?_, by decide, by decide⟩
  · intro ts D t h
    simp [replace_date_part, replaceCore, Except.map, h]
  · intro ts D t h
    have h2 := strptimeHMS_eq_none_of_HM h
    simp [replace_date_part, replaceCore, Except.map, h, h2]

/-- Witness for C1 at a concrete minute-precision input. -/
theorem C1_witness : replace_date_part "08:30" "2025-02-02" = .ok "2025-02-02 08:30" :=
  (C1_projection_replaces_date_preserving_precision.2.1 "08:30" "2025-02-02" ⟨8, 30, 0⟩ (by decide)).trans (by decide)

/-- Claim C3: when the time-of-day portion fails both the `%H:%M:%S` parse and
the `%H:%M` fallback, `replace_date_part` fails with the uncaught `ValueError`
modelled as `Except.error` (the `MalformedTimeOfDay` error) instead of
returning a truncated or fabricated result; the function is pure, so the
failure is confined to that single projection call. -/
theorem C3_malformed_time_of_day_errors : ∀ (ts D : String),
    strptimeHMS (todCore ts.data) = none → strptimeHM (todCore ts.data) = none →
    replace_date_part ts D = .error () := by
  intro ts D h1 h2
  simp [replace_date_part, replaceCore, Except.map, h1, h2]

/-- Witness for C3 at a concrete malformed input. -/
theorem C3_witness : replace_date_part "abc" "2025-01-01" = .error () :=
  C3_malformed_time_of_day_errors "abc" "2025-01-01" (by decide) (by decide)

/-- Claim C7: `mr_truth` returns true exactly when the stripped, lowercased
input is one of the five accepted tokens, and the concrete values named by the
spec evaluate as stated. -/
theorem C7_mr_truth_token_set :
    (∀ v : String, mr_truth v = true ↔ pyLowerStr (pyStripStr v) ∈ mrTokens) ∧
    mr_truth "是" = true ∧ mr_truth "TRUE" = true ∧ mr_truth "1" = true ∧
    mr_truth "Yes" = true ∧ mr_truth "否" = false ∧ mr_truth "" = false ∧
    mr_truth "0" = false ∧ mr_truth "no" = false :=
  ⟨fun v => by simp [mr_truth], by decide, by decide, by decide, by decide,
    by decide, by decide, by decide, by decide⟩

/-- The three completion filters partition any entry list. -/
theorem statusEntry_filter_partition (lst : List StatusEntry) :
    (lst.filter (fun x => x.completed && x.reviewed)).length
      + (lst.filter (fun x => x.completed && !x.reviewed)).length
      + (lst.filter (fun x => !x.completed)).length = lst.length := by
  induction lst with
  | nil => rfl
  | cons x xs ih =>
    cases hc : x.completed <;> cases hr : x.reviewed <;>
      simp [List.filter_cons, hc, hr] <;> omega

/-- Claim C10: for every database state and requested date the stats block of
`api_state_get` partitions the task list: `doneReviewed + doneUnreviewed +
undone = total`, and `total` equals the length of the returned list. -/
theorem C10_stats_partition_total : ∀ (tasks : List TaskTemplate) (states : List StateRow) (date : String),
    (api_state_get tasks states date).2.doneReviewed
      + (api_state_get tasks states date).2.doneUnreviewed
      + (api_state_get tasks states date).2.undone
      = (api_state_get tasks states date).2.total ∧
    (api_state_get tasks states date).2.total = (api_state_get tasks states date).1.length := by
  intro tasks states date
  constructor
  · simpa [api_state_get, mkStats] using statusEntry_filter_partition (tasks.map (entryFor states date))
  · simp [api_state_get, mkStats]

/-- Claim C6: for a task present in the template table with no `task_state` row
for the requested date, `api_state_get` reports `completed = false` and
`reviewed = false` for that task, and the absence of the row is not an error:
the response still carries one entry per template task. -/
theorem C6_absent_status_row_defaults_false : ∀ (tasks : List TaskTemplate) (states : List StateRow) (date : String)
    (t : TaskTemplate), t ∈ tasks →
    (∀ r ∈ states, ¬(r.date = date ∧ r.task_id = t.id)) →
    (⟨t.id, t.name, t.must_review, false, false⟩ : StatusEntry) ∈ (api_state_get tasks states date).1 ∧
    (api_state_get tasks states date).1.length = tasks.length := by
  intro tasks states date t ht hnone
  have hl : lookupState states date t.id = none := by
    apply List.find?_eq_none.mpr
    intro r hr
    simp only [Bool.and_eq_true, beq_iff_eq, not_and]
    intro h1 h2
    exact absurd ⟨h1, h2⟩ (hnone r hr)
  constructor
  · have he : entryFor states date t = ⟨t.id, t.name, t.must_review, false, false⟩ := by
      simp [entryFor, hl]
    have := List.mem_map_of_mem (entryFor states date) ht
    rw [he] at this
    simpa [api_state_get] using this
  · simp [api_state_get]

/-- Witness for C6 on a concrete one-task table with an empty state table. -/
theorem C6_witness :
    (⟨1, "T1", "否", false, false⟩ : StatusEntry) ∈ (api_state_get [⟨1, "T1", "否"⟩] [] "2025-01-01").1 ∧
    (api_state_get [⟨1, "T1", "否"⟩] [] "2025-01-01").1.length = [(⟨1, "T1", "否"⟩ : TaskTemplate)].length :=
  C6_absent_status_row_defaults_false [⟨1, "T1", "否"⟩] [] "2025-01-01" ⟨1, "T1", "否"⟩ (by decide) (by simp)

theorem pyInt_mono {a b : ℚ} (h : a ≤ b) : pyInt a ≤ pyInt b := by
  unfold pyInt
  split_ifs with h1 h2
  · exact Int.floor_le_floor h
  · exact absurd (h1.trans h) h2
  · have g1 : 0 ≤ ⌊b⌋ := Int.floor_nonneg.mpr (by assumption)
    have g2 : 0 ≤ ⌊-a⌋ := Int.floor_nonneg.mpr (by linarith)
    omega
  · have := Int.floor_le_floor (neg_le_neg h)
    omega

/-- Claim C8: the `seq` field built by `api_state_post` is `int(clock * 1000)`
of the wall-clock reading; for any non-decreasing sequence of clock readings
(the spec accepts the millisecond wall clock as the source), the sequence
numbers of successive published events are non-decreasing, ties permitted. -/
theorem C8_seq_monotone_in_clock : ∀ (clock : ℕ → ℚ) (date : ℕ → String) (tid : ℕ → Nat)
    (comp rev : ℕ → Bool), Monotone clock → ∀ i j : ℕ, i ≤ j →
    (postEvent (date i) (tid i) (comp i) (rev i) (clock i)).seq ≤
      (postEvent (date j) (tid j) (comp j) (rev j) (clock j)).seq := by
  intro clock date tid comp rev hm i j hij
  simp only [postEvent]
  exact pyInt_mono (mul_le_mul_of_nonneg_right (hm hij) (by norm_num))

/-- Witness for C8 at two concrete clock readings. -/
theorem C8_witness :
    (postEvent "2025-01-01" 3 true false 0).seq ≤ (postEvent "2025-01-01" 3 true false 1).seq := by
  have h := C8_seq_monotone_in_clock (fun n => (n : ℚ)) (fun _ => "2025-01-01") (fun _ => 3)
    (fun _ => true) (fun _ => false) (fun _ _ hab => Nat.cast_le.mpr hab) 0 1 (by norm_num)
  simpa using h

theorem put_nowait_id {l l2 : Listener} {ev : ChangeEvent}
    (h : put_nowait l ev = some l2) : l2.id = l.id := by
  unfold put_nowait at h
  split at h
  · cases h; rfl
  · cases h

theorem broadcast_ids_sublist (ls : List Listener) (ev : ChangeEvent) :
    ((broadcast ls ev).map Listener.id).Sublist (ls.map Listener.id) := by
  induction ls with
  | nil => simp [broadcast]
  | cons a rest ih =>
    simp only [broadcast, List.filterMap_cons, List.map_cons] at *
    cases hp : put_nowait a ev with
    | none => exact ih.cons a.id
    | some a2 => simpa [put_nowait_id hp] using ih.cons₂ a.id

theorem findById_eq_none {ls : List Listener} {i : Nat}
    (h : i ∉ ls.map Listener.id) : findById ls i = none := by
  apply List.find?_eq_none.mpr
  intro l hl
  simp only [beq_iff_eq]
  intro heq
  exact h (List.mem_map.mpr ⟨l, hl, heq⟩)

theorem broadcast_cons_some {a a2 : Listener} {rest : List Listener} {ev : ChangeEvent}
    (hp : put_nowait a ev = some a2) : broadcast (a :: rest) ev = a2 :: broadcast rest ev := by
  simp [broadcast, List.filterMap_cons, hp]

theorem broadcast_cons_none {a : Listener} {rest : List Listener} {ev : ChangeEvent}
    (hp : put_nowait a ev = none) : broadcast (a :: rest) ev = broadcast rest ev := by
  simp [broadcast, List.filterMap_cons, hp]

theorem findById_cons_pos {a : Listener} {rest : List Listener} {i : Nat}
    (h : a.id = i) : findById (a :: rest) i = some a := by
  simp only [findById]
  rw [List.find?_cons_of_pos _ (by simpa using h)]

theorem findById_cons_neg {a : Listener} {rest : List Listener} {i : Nat}
    (h : a.id ≠ i) : findById (a :: rest) i = findById rest i := by
  simp only [findById]
  rw [List.find?_cons_of_neg _ (by simpa using h)]

theorem findById_of_mem : ∀ (ls : List Listener) (l : Listener),
    (ls.map Listener.id).Nodup → l ∈ ls → findById ls l.id = some l := by
  intro ls
  induction ls with
  | nil => intro l _ hm; cases hm
  | cons a rest ih =>
    intro l hnd hm
    simp only [List.map_cons, List.nodup_cons] at hnd
    rcases List.mem_cons.mp hm with rfl | hm2
    · exact findById_cons_pos rfl
    · have hne : a.id ≠ l.id := fun he =>
        hnd.1 (he ▸ List.mem_map.mpr ⟨l, hm2, rfl⟩)
      rw [findById_cons_neg hne]
      exact ih l hnd.2 hm2

theorem broadcast_findById {ev : ChangeEvent} : ∀ (ls : List Listener),
    (ls.map Listener.id).Nodup → ∀ i,
    findById (broadcast ls ev) i = runOpt (findById ls i) ev := by
  intro ls
  induction ls with
  | nil => intro _ i; simp [broadcast, findById, runOpt]
  | cons a rest ih =>
    intro hnd i
    simp only [List.map_cons, List.nodup_cons] at hnd
    by_cases hi : a.id = i
    · cases hp : put_nowait a ev with
      | some a2 =>
        rw [broadcast_cons_some hp, findById_cons_pos ((put_nowait_id hp).trans hi),
          findById_cons_pos hi]
        simp [runOpt, hp]
      | none =>
        have hnotin : i ∉ (broadcast rest ev).map Listener.id := fun hmem =>
          hnd.1 (hi ▸ (broadcast_ids_sublist rest ev).mem hmem)
        rw [broadcast_cons_none hp, findById_eq_none hnotin, findById_cons_pos hi]
        simp [runOpt, hp]
    · cases hp : put_nowait a ev with
      | some a2 =>
        have h2 : a2.id ≠ i := fun he => hi ((put_nowait_id hp) ▸ he)
        rw [broadcast_cons_some hp, findById_cons_neg h2, findById_cons_neg hi]
        exact ih hnd.2 i
      | none =>
        rw [broadcast_cons_none hp, findById_cons_neg hi]
        exact ih hnd.2 i

theorem broadcast_ids_nodup {ls : List Listener} {ev : ChangeEvent}
    (hnd : (ls.map Listener.id).Nodup) : ((broadcast ls ev).map Listener.id).Nodup :=
  List.Nodup.sublist (broadcast_ids_sublist ls ev) hnd

theorem publishAll_findById (evs : List ChangeEvent) : ∀ ls : List Listener,
    (ls.map Listener.id).Nodup → ∀ i,
    findById (publishAll ls evs) i = evs.foldl runOpt (findById ls i) := by
  induction evs with
  | nil => intro ls _ i; simp [publishAll]
  | cons e evs ih =>
    intro ls hnd i
    simp only [publishAll, List.foldl_cons]
    rw [show evs.foldl broadcast (broadcast ls e) = publishAll (broadcast ls e) evs from rfl,
      ih (broadcast ls e) (broadcast_ids_nodup hnd) i, broadcast_findById ls hnd]

theorem foldl_runOpt_some (evs : List ChangeEvent) : ∀ l : Listener,
    l.queue.length + evs.length ≤ l.capacity →
    evs.foldl runOpt (some l) = some { l with queue := l.queue ++ evs } := by
  induction evs with
  | nil => intro l _; simp
  | cons e evs ih =>
    intro l hcap
    simp only [List.length_cons] at hcap
    have hlt : l.queue.length < l.capacity := by omega
    have hp : put_nowait l e = some { l with queue := l.queue ++ [e] } := by
      simp [put_nowait, hlt]
    simp only [List.foldl_cons, runOpt, hp]
    rw [ih { l with queue := l.queue ++ [e] } (by simp; omega)]
    simp [List.append_assoc]

theorem runListener_queue (evs : List ChangeEvent) : ∀ l : Listener,
    (runListener l evs).queue = l.queue ++ evs.take (l.capacity - l.queue.length) := by
  induction evs with
  | nil => intro l; simp [runListener]
  | cons e evs ih =>
    intro l
    by_cases hlt : l.queue.length < l.capacity
    · have hp : put_nowait l e = some { l with queue := l.queue ++ [e] } := by
        simp [put_nowait, hlt]
      rw [runListener, hp, ih]
      simp only []
      have hc : l.capacity - l.queue.length = (l.capacity - (l.queue.length + 1)) + 1 := by omega
      rw [hc, List.take_succ_cons]
      simp [List.append_assoc]
    · have hp : put_nowait l e = none := by simp [put_nowait, hlt]
      rw [runListener, hp]
      have hc : l.capacity - l.queue.length = 0 := by omega
      simp [hc]

/-- Claim C2 (amended): when enqueueing onto a listener fails, `broadcast`
drops the event for that listener only and removes that listener from the set,
whether the failure is a full queue or a dead transport (the `except Exception`
branch does not distinguish them); a listener with room receives the event
appended to its queue and stays registered; `broadcast` is a total function,
never blocking and never failing the caller. -/
theorem C2_full_queue_drops_event_and_deregisters : ∀ (ls : List Listener) (ev : ChangeEvent) (l : Listener),
    (ls.map Listener.id).Nodup → l ∈ ls →
    findById (broadcast ls ev) l.id =
      (if l.queue.length < l.capacity then some { l with queue := l.queue ++ [ev] } else none) := by
  intro ls ev l hnd hm
  rw [broadcast_findById ls hnd, findById_of_mem ls l hnd hm]
  rfl

/-- Counterexample to claim C2 as stated: a listener whose queue is merely
full (capacity 1, one pending event) is deregistered by `broadcast`, because
`queue.Full` is an `Exception` and the `except Exception` branch collects the
listener into `dead`; the claim says a full listener must remain registered. -/
theorem C2_counterexample :
    (Listener.queue ⟨0, 1, [cev1]⟩).length = Listener.capacity ⟨0, 1, [cev1]⟩ ∧
    broadcast [⟨0, 1, [cev1]⟩] cev2 = [] := by decide

/-- Witness for C2 (amended): with two listeners, the full one is gone after
the publish while the other keeps receiving. -/
theorem C2_witness :
    findById (broadcast [⟨0, 2, []⟩, ⟨1, 1, [cev1]⟩] cev2) 1 = none := by
  have h := C2_full_queue_drops_event_and_deregisters [⟨0, 2, []⟩, ⟨1, 1, [cev1]⟩] cev2 ⟨1, 1, [cev1]⟩ (by decide) (by decide)
  simpa using h

/-- Claim C4: a listener registered across a publish sequence receives, when
its capacity is at least the number of events published, exactly the published
events in publish order (its FIFO queue equals the publish list, so it is
consumed in publish order with no duplicates and no reordering); with smaller
capacity it receives exactly the events accepted by `put_nowait`, a prefix of
the publish order: at most capacity-many, an order-preserving subsequence. -/
theorem C4_fifo_delivery_order_and_backpressure : ∀ (ls : List Listener) (evs : List ChangeEvent) (l : Listener),
    ((ls.map Listener.id).Nodup → l ∈ ls → l.queue = [] → evs.length ≤ l.capacity →
      findById (publishAll ls evs) l.id = some { l with queue := evs }) ∧
    ((runListener l evs).queue = l.queue ++ evs.take (l.capacity - l.queue.length)) ∧
    ((runListener { l with queue := [] } evs).queue).Sublist evs ∧
    ((runListener { l with queue := [] } evs).queue).length ≤ l.capacity := by
  intro ls evs l
  refine ⟨?_, runListener_queue evs l, ?_, ?_⟩
  · intro hnd hm hq hcap
    rw [publishAll_findById evs ls hnd, findById_of_mem ls l hnd hm,
      foldl_runOpt_some evs l (by rw [hq]; simpa using hcap)]
    simp [hq]
  · rw [runListener_queue]
    simpa using List.take_sublist l.capacity evs
  · rw [runListener_queue]
    simp [List.length_take]

/-- Witness for C4: a capacity-3 listener receives two published events in
order. -/
theorem C4_witness :
    findById (publishAll [⟨0, 3, []⟩] [cev1, cev2]) 0 = some ⟨0, 3, [cev1, cev2]⟩ := by
  have h := (C4_fifo_delivery_order_and_backpressure [⟨0, 3, []⟩] [cev1, cev2] ⟨0, 3, []⟩).1 (by decide) (by decide) rfl (by decide)
  exact h

/-- Claim C9 (amended): every `broadcast` call acquires the registry mutex
first and releases it last; the snapshot copy of the listener set is taken
under the mutex, and every enqueue onto a listener queue also happens while
the mutex is held, so publish serializes with registration and deregistration
instead of releasing the lock before delivery. -/
theorem C9_lock_held_during_delivery : ∀ (ls : List Listener) (ev : ChangeEvent),
    (broadcastTrace ls ev).head? = some BOp.acquire ∧
    (broadcastTrace ls ev).getLast? = some BOp.release ∧
    (broadcastTrace ls ev).get? 1 = some BOp.snapshot ∧
    lockHeldAt (broadcastTrace ls ev) 1 = true ∧
    (∀ i j, (broadcastTrace ls ev).get? i = some (BOp.enqueue j) →
      lockHeldAt (broadcastTrace ls ev) i = true) := by
  intro ls ev
  set mid := (List.range ls.length).map BOp.enqueue ++ (deadIndices ls ev).map BOp.discard with hmid
  have htr : broadcastTrace ls ev = BOp.acquire :: BOp.snapshot :: (mid ++ [BOp.release]) := by
    simp [broadcastTrace, hmid, List.append_assoc]
  have hnorel : BOp.release ∉ mid := by
    intro hmem
    rw [hmid] at hmem
    rcases List.mem_append.mp hmem with hmem | hmem <;>
      rcases List.mem_map.mp hmem with ⟨x, _, hx⟩ <;> cases hx
  refine ⟨by rw [htr]; rfl, ?_, by rw [htr]; rfl, by rw [htr]; rfl, ?_⟩
  · rw [htr, show BOp.acquire :: BOp.snapshot :: (mid ++ [BOp.release])
        = (BOp.acquire :: BOp.snapshot :: mid) ++ [BOp.release] by simp,
      List.getLast?_concat]
  · intro i j hget
    rw [htr] at hget ⊢
    match i, hget with
    | 0, h => exact absurd h (by simp)
    | 1, h => exact absurd h (by simp)
    | (k+2), h =>
      have h2 : (mid ++ [BOp.release]).get? k = some (BOp.enqueue j) := h
      have hk : k < mid.length := by
        by_contra hk
        push_neg at hk
        rw [List.get?_append_right hk] at h2
        cases hm2 : k - mid.length with
        | zero => rw [hm2] at h2; exact absurd h2 (by simp)
        | succ n => rw [hm2] at h2; exact absurd h2 (by simp)
      have htake : (BOp.acquire :: BOp.snapshot :: (mid ++ [BOp.release])).take (k + 2 + 1)
          = BOp.acquire :: BOp.snapshot :: (mid.take (k + 1)) := by
        rw [List.take_succ_cons, List.take_succ_cons, List.take_append_of_le_length (by omega)]
      unfold lockHeldAt
      rw [htake]
      have hc : (BOp.acquire :: BOp.snapshot :: mid.take (k + 1)).count BOp.release = 0 := by
        rw [List.count_eq_zero]
        intro hmem
        simp only [List.mem_cons] at hmem
        rcases hmem with h3 | h3 | hmem
        · cases h3
        · cases h3
        · exact hnorel (List.Sublist.mem hmem (List.take_sublist _ _))
      have ha : 0 < (BOp.acquire :: BOp.snapshot :: mid.take (k + 1)).count BOp.acquire := by
        simp [List.count_cons]
      rw [hc]
      exact decide_eq_true ha

/-- Counterexample to claim C9 as stated: in the trace of a `broadcast` call
with one registered listener, the enqueue step at position 2 runs while the
registry mutex is held, and the release only comes at the end of the
`with lst_lock:` block, contradicting the claim that the mutex is released
before enqueueing onto any listener queue. -/
theorem C9_counterexample :
    (broadcastTrace [⟨0, 1000, []⟩] cev1).get? 2 = some (BOp.enqueue 0) ∧
    (broadcastTrace [⟨0, 1000, []⟩] cev1).getLast? = some BOp.release ∧
    lockHeldAt (broadcastTrace [⟨0, 1000, []⟩] cev1) 2 = true := by decide

/-- Witness for C9 (amended) on a concrete one-listener registry. -/
theorem C9_witness :
    lockHeldAt (broadcastTrace [⟨0, 1000, []⟩] cev2) 2 = true :=
  (C9_lock_held_during_delivery [⟨0, 1000, []⟩] cev2).2.2.2.2 2 0 (by decide)

theorem digitVal?_le9 {c : Char} {a : Nat} (h : digitVal? c = some a) : a ≤ 9 := by
  unfold digitVal? at h
  split at h
  next hcond =>
    simp only [Bool.and_eq_true, decide_eq_true_eq] at hcond
    cases h
    omega
  next => cases h

theorem readField_le {hi : Nat} {cs rest : List Char} {v : Nat} (h9 : 9 ≤ hi)
    (h : readField hi cs = some (v, rest)) : v ≤ hi := by
  cases cs with
  | nil => simp [readField] at h
  | cons c1 cs2 =>
    cases cs2 with
    | nil =>
      simp only [readField] at h
      cases hd : digitVal? c1 with
      | none => rw [hd] at h; simp at h
      | some a =>
        rw [hd] at h
        simp only [Option.map] at h
        cases h
        exact le_trans (digitVal?_le9 hd) h9
    | cons c2 r =>
      simp only [readField] at h
      cases hd1 : digitVal? c1 with
      | none => rw [hd1] at h; simp at h
      | some a =>
        rw [hd1] at h
        cases hd2 : digitVal? c2 with
        | none =>
          rw [hd2] at h
          simp only [] at h
          cases h
          exact le_trans (digitVal?_le9 hd1) h9
        | some b =>
          rw [hd2] at h
          simp only [] at h
          split at h
          · cases h; assumption
          · cases h

theorem strptimeHM_bounds {cs : List Char} {t : PyTime} (h : strptimeHM cs = some t) :
    t.hour ≤ 23 ∧ t.minute ≤ 59 ∧ t.second = 0 := by
  unfold strptimeHM at h
  split at h
  next => cases h
  next hh rest heq1 =>
    split at h
    next rest2 =>
      split at h
      next m heq2 =>
        cases h
        exact ⟨readField_le (by norm_num) heq1, readField_le (by norm_num) heq2, rfl⟩
      next => cases h
    next => cases h

theorem strptimeHMS_bounds {cs : List Char} {t : PyTime} (h : strptimeHMS cs = some t) :
    t.hour ≤ 23 ∧ t.minute ≤ 59 ∧ t.second ≤ 59 := by
  unfold strptimeHMS at h
  split at h
  next => cases h
  next hh rest heq1 =>
    split at h
    next rest2 =>
      split at h
      next => cases h
      next m rest3 heq2 =>
        split at h
        next rest4 =>
          split at h
          next s heq3 =>
            cases h
            exact ⟨readField_le (by norm_num) heq1, readField_le (by norm_num) heq2,
              readField_le (by norm_num) heq3⟩
          next => cases h
        next => cases h
    next => cases h

theorem digitVal?_digitChar {d : Nat} (h : d ≤ 9) : digitVal? (Nat.digitChar d) = some d := by
  interval_cases d <;> decide

theorem digitChar_not_pySpace {d : Nat} (h : d ≤ 9) : isPySpace (Nat.digitChar d) = false := by
  interval_cases d <;> decide

theorem pad2_length (n : Nat) : (pad2 n).length = 2 := by
  unfold pad2; split <;> rfl

theorem pad2_not_pySpace {n : Nat} (h : n ≤ 99) : ∀ c ∈ pad2 n, isPySpace c = false := by
  intro c hc
  unfold pad2 at hc
  split at hc
  next hlt =>
    rcases List.mem_cons.mp hc with rfl | hc2
    · decide
    · rcases List.mem_cons.mp hc2 with rfl | hc3
      · exact digitChar_not_pySpace (by omega)
      · cases hc3
  next hge =>
    rcases List.mem_cons.mp hc with rfl | hc2
    · exact digitChar_not_pySpace (by omega)
    · rcases List.mem_cons.mp hc2 with rfl | hc3
      · exact digitChar_not_pySpace (by omega)
      · cases hc3

theorem readField_pad2 {n hi : Nat} (hn : n ≤ hi) (hhi : hi ≤ 99) (rest : List Char) :
    readField hi (pad2 n ++ rest) = some (n, rest) := by
  unfold pad2
  split
  next hlt =>
    simp only [List.cons_append, List.nil_append, readField,
      digitVal?_digitChar (show n ≤ 9 by omega)]
    rw [show digitVal? '0' = some 0 from by decide]
    simp only []
    rw [if_pos (by omega)]
    simp
  next hge =>
    push_neg at hge
    simp only [List.cons_append, List.nil_append, readField,
      digitVal?_digitChar (show n / 10 ≤ 9 by omega),
      digitVal?_digitChar (show n % 10 ≤ 9 by omega)]
    rw [if_pos (by omega)]
    have : 10 * (n / 10) + n % 10 = n := by omega
    rw [this]

theorem renderHMS_not_pySpace {t : PyTime} (h1 : t.hour ≤ 23) (h2 : t.minute ≤ 59)
    (h3 : t.second ≤ 59) : ∀ c ∈ renderHMS t, isPySpace c = false := by
  intro c hc
  simp only [renderHMS, List.mem_append, List.mem_cons] at hc
  rcases hc with (hc | rfl | hc) | rfl | hc
  · exact pad2_not_pySpace (by omega) c hc
  · decide
  · exact pad2_not_pySpace (by omega) c hc
  · decide
  · exact pad2_not_pySpace (by omega) c hc

theorem renderHM_not_pySpace {t : PyTime} (h1 : t.hour ≤ 23) (h2 : t.minute ≤ 59) :
    ∀ c ∈ renderHM t, isPySpace c = false := by
  intro c hc
  simp only [renderHM, List.mem_append, List.mem_cons] at hc
  rcases hc with hc | rfl | hc
  · exact pad2_not_pySpace (by omega) c hc
  · decide
  · exact pad2_not_pySpace (by omega) c hc

theorem strptimeHMS_render {t : PyTime} (h1 : t.hour ≤ 23) (h2 : t.minute ≤ 59)
    (h3 : t.second ≤ 59) : strptimeHMS (renderHMS t) = some t := by
  have e3 : readField 59 (pad2 t.second) = some (t.second, []) := by
    rw [← List.append_nil (pad2 t.second)]
    exact readField_pad2 h3 (by norm_num) []
  unfold strptimeHMS renderHMS
  simp only [List.append_assoc, List.cons_append]
  rw [readField_pad2 h1 (by norm_num)]
  simp only []
  rw [readField_pad2 h2 (by norm_num)]
  simp only []
  rw [e3]

theorem strptimeHM_render {t : PyTime} (h1 : t.hour ≤ 23) (h2 : t.minute ≤ 59)
    (h3 : t.second = 0) : strptimeHM (renderHM t) = some t := by
  have e2 : readField 59 (pad2 t.minute) = some (t.minute, []) := by
    rw [← List.append_nil (pad2 t.minute)]
    exact readField_pad2 h2 (by norm_num) []
  unfold strptimeHM renderHM
  rw [readField_pad2 h1 (by norm_num)]
  simp only []
  rw [e2]
  obtain ⟨hh, mm, ss⟩ := t
  simp only [] at h3
  subst h3
  rfl

theorem strptimeHMS_renderHM {t : PyTime} (h1 : t.hour ≤ 23) (h2 : t.minute ≤ 59) :
    strptimeHMS (renderHM t) = none := by
  have e2 : readField 59 (pad2 t.minute) = some (t.minute, []) := by
    rw [← List.append_nil (pad2 t.minute)]
    exact readField_pad2 h2 (by norm_num) []
  unfold strptimeHMS renderHM
  rw [readField_pad2 h1 (by norm_num)]
  simp only []
  rw [e2]

theorem stripR_concat {p : Char → Bool} {xs : List Char} {b : Char} (hb : p b = false) :
    ((xs ++ [b]).reverse.dropWhile p).reverse = xs ++ [b] := by
  rw [List.reverse_append]
  simp only [List.reverse_cons, List.reverse_nil, List.nil_append, List.singleton_append]
  rw [List.dropWhile_cons, if_neg (by simp [hb])]
  rw [List.reverse_cons, List.reverse_reverse]

theorem stripCore_shape {a b : Char} {mid : List Char} (ha : isPySpace a = false)
    (hb : isPySpace b = false) : stripCore (a :: (mid ++ [b])) = a :: (mid ++ [b]) := by
  unfold stripCore
  rw [List.dropWhile_cons, if_neg (by simp [ha])]
  rw [show a :: (mid ++ [b]) = (a :: mid) ++ [b] from by simp, stripR_concat hb]

theorem stripCore_space_cons {a b : Char} {mid : List Char} (ha : isPySpace a = false)
    (hb : isPySpace b = false) :
    stripCore (' ' :: (a :: (mid ++ [b]))) = a :: (mid ++ [b]) := by
  unfold stripCore
  rw [List.dropWhile_cons, if_pos (by decide)]
  rw [List.dropWhile_cons, if_neg (by simp [ha])]
  rw [show a :: (mid ++ [b]) = (a :: mid) ++ [b] from by simp, stripR_concat hb]

theorem afterFirstSpace_append {D1 r : List Char} (h : ∀ c ∈ D1, c ≠ ' ') :
    afterFirstSpace (D1 ++ ' ' :: r) = some r := by
  induction D1 with
  | nil => simp [afterFirstSpace]
  | cons d D12 ih =>
    rw [List.cons_append, afterFirstSpace, if_neg (h d (by simp))]
    exact ih (fun c hc => h c (by simp [hc]))

theorem afterFirstSpace_eq_none {r : List Char} (h : ∀ c ∈ r, c ≠ ' ') :
    afterFirstSpace r = none := by
  induction r with
  | nil => rfl
  | cons d r2 ih =>
    rw [afterFirstSpace, if_neg (h d (by simp))]
    exact ih (fun c hc => h c (by simp [hc]))

theorem ne_space_of_not_pySpace {c : Char} (h : isPySpace c = false) : c ≠ ' ' := by
  intro hc
  rw [hc] at h
  exact absurd h (by decide)

theorem exists_shape {r : List Char} (h : 2 ≤ r.length) :
    ∃ a mid b, r = a :: (mid ++ [b]) := by
  cases r with
  | nil => simp at h
  | cons a rest =>
    have hne : rest ≠ [] := by
      intro he
      rw [he] at h
      simp at h
    exact ⟨a, rest.dropLast, rest.getLast hne, by rw [List.dropLast_append_getLast hne]⟩

theorem todCore_proj {D1 r : List Char} (hD : ∀ c ∈ D1, isPySpace c = false)
    (hr : ∀ c ∈ r, isPySpace c = false) (hlen : 2 ≤ r.length) :
    todCore (D1 ++ ' ' :: r) = r := by
  obtain ⟨a, mid, b, rfl⟩ := exists_shape hlen
  have ha : isPySpace a = false := hr a (by simp)
  have hb : isPySpace b = false := hr b (by simp)
  have hnos : ∀ c ∈ a :: (mid ++ [b]), c ≠ ' ' := fun c hc => ne_space_of_not_pySpace (hr c hc)
  unfold todCore
  dsimp only
  cases D1 with
  | nil =>
    simp only [List.nil_append]
    rw [stripCore_space_cons ha hb, afterFirstSpace_eq_none hnos, stripCore_shape ha hb]
  | cons d D12 =>
    have hd : isPySpace d = false := hD d (by simp)
    have hshape : (d :: D12) ++ ' ' :: (a :: (mid ++ [b]))
        = d :: ((D12 ++ ' ' :: a :: mid) ++ [b]) := by simp
    rw [hshape, stripCore_shape hd hb, ← hshape,
      afterFirstSpace_append (fun c hc => ne_space_of_not_pySpace (hD c hc)),
      stripCore_shape ha hb]

theorem renderHMS_length (t : PyTime) : (renderHMS t).length = 8 := by
  simp [renderHMS, pad2_length]

theorem renderHM_length (t : PyTime) : (renderHM t).length = 5 := by
  simp [renderHM, pad2_length]

/-- Claim C5: projection is date-substitution-pure: projecting a valid
template onto a whitespace-free date `D1` and re-projecting the resulting
string onto `D2` yields the same string as projecting the template directly
onto `D2`. -/
theorem C5_projection_composition_pure : ∀ (T D1 D2 s : String), (∀ c ∈ D1.data, isPySpace c = false) →
    replace_date_part T D1 = .ok s → replace_date_part s D2 = replace_date_part T D2 := by
  intro T D1 D2 s hD h
  unfold replace_date_part at h ⊢
  cases hS : strptimeHMS (todCore T.data) with
  | some t =>
    obtain ⟨hb1, hb2, hb3⟩ := strptimeHMS_bounds hS
    have hrc : replaceCore T.data D1.data = .ok (D1.data ++ ' ' :: renderHMS t) := by
      simp [replaceCore, hS]
    rw [hrc] at h
    simp only [Except.map] at h
    have hsd : s.data = D1.data ++ ' ' :: renderHMS t := by cases h; rfl
    have htod : todCore s.data = renderHMS t := by
      rw [hsd]
      exact todCore_proj hD (renderHMS_not_pySpace hb1 hb2 hb3)
        (by rw [renderHMS_length]; norm_num)
    have hS2 : strptimeHMS (todCore s.data) = some t := by
      rw [htod]; exact strptimeHMS_render hb1 hb2 hb3
    rw [show replaceCore s.data D2.data = .ok (D2.data ++ ' ' :: renderHMS t) from by
        simp [replaceCore, hS2],
      show replaceCore T.data D2.data = .ok (D2.data ++ ' ' :: renderHMS t) from by
        simp [replaceCore, hS]]
  | none =>
    cases hM : strptimeHM (todCore T.data) with
    | none =>
      have herr : replaceCore T.data D1.data = .error () := by simp [replaceCore, hS, hM]
      rw [herr] at h
      simp [Except.map] at h
    | some t =>
      obtain ⟨hb1, hb2, hb3⟩ := strptimeHM_bounds hM
      have hrc : replaceCore T.data D1.data = .ok (D1.data ++ ' ' :: renderHM t) := by
        simp [replaceCore, hS, hM]
      rw [hrc] at h
      simp only [Except.map] at h
      have hsd : s.data = D1.data ++ ' ' :: renderHM t := by cases h; rfl
      have htod : todCore s.data = renderHM t := by
        rw [hsd]
        exact todCore_proj hD (renderHM_not_pySpace hb1 hb2)
          (by rw [renderHM_length]; norm_num)
      have hS2 : strptimeHMS (todCore s.data) = none := by
        rw [htod]; exact strptimeHMS_renderHM hb1 hb2
      have hM2 : strptimeHM (todCore s.data) = some t := by
        rw [htod]; exact strptimeHM_render hb1 hb2 hb3
      rw [show replaceCore s.data D2.data = .ok (D2.data ++ ' ' :: renderHM t) from by
          simp [replaceCore, hS2, hM2],
        show replaceCore T.data D2.data = .ok (D2.data ++ ' ' :: renderHM t) from by
          simp [replaceCore, hS, hM]]

/-- Witness for C5 on the concrete scenario of the spec. -/
theorem C5_witness :
    replace_date_part "2025-01-01 08:00" "2025-03-04" =
      replace_date_part "2024-08-06 08:00" "2025-03-04" :=
  C5_projection_composition_pure "2024-08-06 08:00" "2025-01-01" "2025-03-04" "2025-01-01 08:00"
    (by decide) (by decide)

/-- Witness for C7 at a concrete truthy input. -/
theorem C7_witness : mr_truth "TRUE" = true :=
  C7_mr_truth_token_set.2.2.1

/-- Witness for C10 on a concrete one-task table. -/
theorem C10_witness :
    (api_state_get [⟨1, "T1", "否"⟩] [] "2025-01-01").2.doneReviewed
      + (api_state_get [⟨1, "T1", "否"⟩] [] "2025-01-01").2.doneUnreviewed
      + (api_state_get [⟨1, "T1", "否"⟩] [] "2025-01-01").2.undone
      = (api_state_get [⟨1, "T1", "否"⟩] [] "2025-01-01").2.total ∧
    (api_state_get [⟨1, "T1", "否"⟩] [] "2025-01-01").2.total
      = (api_state_get [⟨1, "T1", "否"⟩] [] "2025-01-01").1.length :=
  C10_stats_partition_total [⟨1, "T1", "否"⟩] [] "2025-01-01"
